import Mathlib

/-!
Verification development for the OpenAPI → TypeScript client generator.

The definitions below are a shallow embedding of the generator's core:
the schema data model and reference resolver (src/src/index.ts, classes
`OpenAPIParser` and the shared type declarations), the type synthesizer and
endpoint/client emission helpers (src/generator.ts, class
`TypeScriptClientGenerator`), and the example emitter's method-name
sanitizer (src/src/example-generator.ts, class `ExampleGenerator`).

Modelling conventions:
- JS objects and Maps iterated by `Object.entries`/`Object.keys` are
  modelled as ordered association lists (insertion order), with unique keys.
- JS `Set<string>` is modelled as a `List String` queried by membership.
- Character case operations model the ASCII range (the JS regex classes
  involved, `[a-zA-Z0-9]`, `[a-z]`, `[A-Z]`, `[0-9]`, `[{}]`, are ASCII-only).
- `schemaToType` in the source is unboundedly recursive; it is embedded with
  an explicit fuel bound on call depth, `none` meaning the source recursion
  does not return within that depth. Every non-recursive branch yields `some`.
- JS numbers are modelled as exact integers (IEEE-double rounding of very
  large status-code keys is not modelled).
-/

namespace APIGen

/-- Character test for the JS regex class [a-zA-Z0-9] (ASCII letters/digits). -/
def isAsciiAlnum (c : Char) : Bool :=
  c.isAlpha || c.isDigit

/-- JS toLowerCase modelled characterwise (ASCII case mapping). -/
def toLowerString (s : String) : String :=
  String.mk (s.data.map Char.toLower)

/-- Whitespace characters skipped by JS parseInt before parsing. -/
def isJsSpace (c : Char) : Bool :=
  c == ' ' || c == '\t' || c == '\n' || c == '\r' || c == '\x0b' || c == '\x0c'

/-- Value of an ASCII hex digit, none otherwise. -/
def hexDigitVal (c : Char) : Option Nat :=
  if c.isDigit then some (c.toNat - '0'.toNat)
  else if 'a' ≤ c ∧ c ≤ 'f' then some (c.toNat - 'a'.toNat + 10)
  else if 'A' ≤ c ∧ c ≤ 'F' then some (c.toNat - 'A'.toNat + 10)
  else none

/-- Character test for an ASCII hex digit. -/
def isHexDigitChar (c : Char) : Bool :=
  (hexDigitVal c).isSome

/-- Numeric value of a decimal digit string. -/
def decCharsVal (cs : List Char) : Nat :=
  cs.foldl (fun a c => a * 10 + (c.toNat - '0'.toNat)) 0

/-- Numeric value of a hex digit string. -/
def hexCharsVal (cs : List Char) : Nat :=
  cs.foldl (fun a c => a * 16 + ((hexDigitVal c).getD 0)) 0

/-- Decimal tail of JS parseInt: longest run of leading decimal digits,
none (NaN) when there is no digit. -/
def parseIntDec (neg : Bool) (cs : List Char) : Option Int :=
  let ds := cs.takeWhile Char.isDigit
  if ds.isEmpty then none
  else some (if neg then -(decCharsVal ds : Int) else (decCharsVal ds : Int))

/-- Model of JS parseInt(s) with no radix argument: skip leading whitespace,
optional sign, optional 0x/0X hex
marker, then the longest run of digits; none models NaN. -/
def parseIntJS (s : String) : Option Int :=
  let cs := s.data.dropWhile isJsSpace
  match cs with
  | '-' :: rest => parseIntHexOrDec true rest
  | '+' :: rest => parseIntHexOrDec false rest
  | _ => parseIntHexOrDec false cs
where
  parseIntHexOrDec (neg : Bool) (cs : List Char) : Option Int :=
    match cs with
    | '0' :: x :: rest =>
        if x = 'x' ∨ x = 'X' then
          let ds := rest.takeWhile isHexDigitChar
          if ds.isEmpty then none
          else some (if neg then -(hexCharsVal ds : Int) else (hexCharsVal ds : Int))
        else parseIntDec neg cs
    | _ => parseIntDec neg cs

/-- JS String.split on a one-character separator, modelled on character
lists: splitting the empty string yields one empty piece, a separator starts
a new piece, any other character extends the current piece. -/
def splitOnChar (sep : Char) : List Char → List (List Char)
  | [] => [[]]
  | c :: cs =>
      let rest := splitOnChar sep cs
      if c = sep then [] :: rest
      else
        match rest with
        | r :: rs => (c :: r) :: rs
        | [] => [[c]]

/-- JS String.replace with a plain-string pattern: replaces the first
occurrence only; returns the input unchanged when the pattern is absent. -/
def replaceOnceList (pat rep : List Char) : List Char → List Char
  | [] => if pat.isEmpty then rep else []
  | c :: cs =>
      if pat.isPrefixOf (c :: cs) then rep ++ (c :: cs).drop pat.length
      else c :: replaceOnceList pat rep cs

/-- String wrapper for `replaceOnceList`. -/
def replaceOnce (pat rep s : String) : String :=
  String.mk (replaceOnceList pat.data rep.data s.data)

/-- First-match lookup in an ordered association list; models `Map.get` /
JS object indexing (keys are unique in the source collections). -/
def mapGet {α : Type} (m : List (String × α)) (k : String) : Option α :=
  match m.find? (fun p => p.1 == k) with
  | some p => some p.2
  | none => none

/-- ECMAScript array-index test: a string property key is an array index
when it is the canonical decimal form (no sign, no leading zero except "0"
itself) of an integer below 2^32 - 1; such keys are enumerated before and
separately from ordinary string keys. -/
def canonicalArrayIndex (s : String) : Option Nat :=
  match s.data with
  | [] => none
  | c :: cs =>
      if (c :: cs).all Char.isDigit ∧ (cs = [] ∨ c ≠ '0') then
        let n := decCharsVal (c :: cs)
        if n < 4294967295 then some n else none
      else none

/-- Numeric value of an array-index key (0 for non-index keys, a default
never exercised where it matters). -/
def indexVal (k : String) : Nat :=
  (canonicalArrayIndex k).getD 0

/-- Insertion step of the ascending-by-index-value sort. -/
def insertByVal (k : String) : List String → List String
  | [] => [k]
  | x :: xs => if indexVal k ≤ indexVal x then k :: x :: xs else x :: insertByVal k xs

/-- Ascending-by-index-value insertion sort of array-index keys. -/
def sortByVal : List String → List String
  | [] => []
  | x :: xs => insertByVal x (sortByVal xs)

/-- Enumeration order of Object.keys on a JS object, per ECMAScript
OrdinaryOwnPropertyKeys: canonical array-index keys ascending by numeric
value first, then the remaining string keys in insertion order. JSON.parse
stores keys in this same order, so applying it at the Object.keys call site
is observationally faithful for records built from the input document. -/
def jsObjectKeys (keys : List String) : List String :=
  sortByVal (keys.filter (fun k => (canonicalArrayIndex k).isSome)) ++
    keys.filter (fun k => !(canonicalArrayIndex k).isSome)

/-- OpenAPI schema node, mirroring the `Schema` union of src/types
(variants: string, number/integer, boolean, array, object, $ref,
oneOf, allOf, anyOf). Optional `format`/`default`/`additionalProperties`
payloads are carried for faithfulness; no embedded operation reads them. -/
inductive Schema : Type where
  | strS (enumVals : Option (List String)) (format : Option String) (dflt : Option String)
  | numS (isInteger : Bool) (format : Option String) (dfltNum : Option Int)
  | boolS (dfltBool : Option Bool)
  | arrS (items : Schema)
  | objS (properties : Option (List (String × Schema))) (required : Option (List String))
      (additionalProperties : Option (Sum Bool Schema))
  | refS (ref : String)
  | oneOfS (ss : List Schema)
  | allOfS (ss : List Schema)
  | anyOfS (ss : List Schema)

/-- Ordered name → schema map, as loaded from components.schemas. -/
abbrev SchemaMap := List (String × Schema)

/-- Parameter object (src/types `Parameter`); the source field `in` is
called `location` here. -/
structure Param where
  name : String
  location : String
  required : Option Bool
  description : Option String
  schema : Option Schema
  style : Option String

/-- Media type object carrying an optional schema. -/
structure MediaTypeObj where
  schema : Option Schema

/-- Response declaration (src/types `Response`). -/
structure ResponseObj where
  description : String
  content : Option (List (String × MediaTypeObj))

/-- Request body declaration (src/types `RequestBody`). -/
structure RequestBodyObj where
  required : Option Bool
  content : List (String × MediaTypeObj)

/-- Operation object (src/types `Operation`). -/
structure Operation where
  operationId : Option String
  summary : Option String
  description : Option String
  parameters : Option (List Param)
  requestBody : Option RequestBodyObj
  responses : List (String × ResponseObj)
  tags : Option (List String)

/-- Supported HTTP methods, in the fixed precedence order used by the
endpoint builder. -/
inductive HttpMethod : Type where
  | get | post | put | patch | delete
deriving DecidableEq

/-- Lowercase wire name of a method. -/
def HttpMethod.toStr : HttpMethod → String
  | .get => "get"
  | .post => "post"
  | .put => "put"
  | .patch => "patch"
  | .delete => "delete"

/-- The fixed method iteration order of extractEndpoints. -/
def methodOrder : List HttpMethod :=
  [.get, .post, .put, .patch, .delete]

/-- Path item (src/types `PathItem`): five optional operations plus shared
parameters. -/
structure PathItem where
  get : Option Operation
  post : Option Operation
  put : Option Operation
  patch : Option Operation
  delete : Option Operation
  parameters : Option (List Param)

/-- Field selection of a path item by method. -/
def PathItem.getOp (item : PathItem) : HttpMethod → Option Operation
  | .get => item.get
  | .post => item.post
  | .put => item.put
  | .patch => item.patch
  | .delete => item.delete

/-- Server entry of the document. -/
structure ServerObj where
  url : String
  description : Option String

/-- Reusable components section. -/
structure Components where
  schemas : Option (List (String × Schema))
  parameters : Option (List (String × Param))

/-- Document info block. -/
structure InfoObj where
  title : String
  version : String
  description : Option String

/-- Root OpenAPI document (src/types `OpenAPISpec`), with ordered path
entries. -/
structure OpenAPISpecDoc where
  openapi : String
  info : InfoObj
  servers : Option (List ServerObj)
  paths : List (String × PathItem)
  components : Option Components

/-- Normalized endpoint record (src/types `Endpoint`). -/
structure Endpoint where
  method : HttpMethod
  path : String
  operationId : String
  summary : Option String
  description : Option String
  parameters : List Param
  requestBody : Option RequestBodyObj
  responses : List (String × ResponseObj)
  tags : Option (List String)

/-- Parameters-or-empty coalescing used by the endpoint builder
(JS `x || []`). -/
def orEmptyParams (o : Option (List Param)) : List Param :=
  match o with
  | some ps => ps
  | none => []

namespace OpenAPIParser

/-- The registry-path marker stripped from $ref strings. -/
def refPathMarker : String := "#/components/schemas/"

/-- Mirror of `OpenAPIParser.loadSchemas`: the registry is the ordered
components.schemas entries, empty when the section is absent. -/
def loadSchemas (spec : OpenAPISpecDoc) : SchemaMap :=
  match spec.components with
  | some comps =>
      match comps.schemas with
      | some entries => entries
      | none => []
  | none => []

/-- Mirror of `OpenAPIParser.resolveSchema`: a non-reference node is returned
unchanged; a $ref has the registry-path marker stripped (first occurrence,
as JS String.replace) and is looked up, falling back to the original
reference node when the name is absent. -/
def resolveSchema (schemas : SchemaMap) (schema : Schema) : Schema :=
  match schema with
  | .refS r =>
      let schemaName := replaceOnce refPathMarker "" r
      match mapGet schemas schemaName with
      | some target => target
      | none => schema
  | _ => schema

/-- Mirror of `OpenAPIParser.generateOperationId`: split the path on slashes,
drop empty segments, strip brace characters, capitalize each segment's first
character, and concatenate after the lowercased method. -/
def generateOperationId (method path : String) : String :=
  let pathParts :=
    ((((splitOnChar '/' path.data).map String.mk).filter (fun part => part != "")).map
        (fun part => String.mk (part.data.filter (fun c => !(c == '{' || c == '}'))))).map
      (fun part =>
        match part.data with
        | [] => ""
        | c :: cs => String.mk (Char.toUpper c :: cs))
  toLowerString method ++ String.join pathParts

/-- One endpoint record as pushed by the extractEndpoints loop body:
missing or empty operationId (JS falsy) triggers derivation, and
parameters are path-level followed by operation-level. -/
def buildEndpoint (path : String) (item : PathItem) (method : HttpMethod)
    (operation : Operation) : Endpoint :=
  let operationId :=
    match operation.operationId with
    | some oid => if oid = "" then generateOperationId method.toStr path else oid
    | none => generateOperationId method.toStr path
  let allParameters :=
    orEmptyParams item.parameters ++ orEmptyParams operation.parameters
  { method := method
    path := path
    operationId := operationId
    summary := operation.summary
    description := operation.description
    parameters := allParameters
    requestBody := operation.requestBody
    responses := operation.responses
    tags := operation.tags }

/-- Body of the extractEndpoints inner loop: skip an absent method, push one
endpoint for a present one. -/
def pushEndpoint (path : String) (item : PathItem) (acc : List Endpoint)
    (method : HttpMethod) : List Endpoint :=
  match item.getOp method with
  | none => acc
  | some operation => acc ++ [buildEndpoint path item method operation]

/-- Mirror of `OpenAPIParser.extractEndpoints`: the nested for-loops pushing
onto an accumulator, modelled as folds over the ordered path entries and the
fixed method order. -/
def extractEndpoints (spec : OpenAPISpecDoc) : List Endpoint :=
  spec.paths.foldl
    (fun endpoints entry => methodOrder.foldl (pushEndpoint entry.1 entry.2) endpoints)
    []

end OpenAPIParser

namespace TypeScriptClientGenerator

/-- Sequence option-producing computations over a list, propagating none
(models the JS `.map` whose element computations are the recursive calls
tracked by the fuel discipline). -/
def traverseOption {α β : Type} (f : α → Option β) : List α → Option (List β)
  | [] => some []
  | x :: xs =>
      match f x with
      | none => none
      | some y =>
          match traverseOption f xs with
          | none => none
          | some ys => some (y :: ys)

/-- One emitted property line of an object type: the key, an optionality
marker when the key is absent from the required list, and the rendered
property type. -/
def propLine (required : Option (List String)) (kv : String × Schema) (t : String) : String :=
  let isRequired :=
    match required with
    | some rs => rs.contains kv.1
    | none => false
  let opt := if isRequired then "" else "?"
  "  " ++ kv.1 ++ opt ++ ": " ++ t ++ ";"

/-- The enum rendering of a string schema: quoted literals pipe-joined in
declared order. -/
def enumUnion (vs : List String) : String :=
  String.intercalate " | " (vs.map (fun v => "\"" ++ v ++ "\""))

/-- Object type rendering: newline-joined property lines in braces. -/
def objBody (lines : List String) : String :=
  "\x7b\n" ++ String.intercalate "\n" lines ++ "\n\x7d"

/-- Mirror of `TypeScriptClientGenerator.schemaToType` with an explicit fuel
bound on recursion depth: the node is first resolved via resolveSchema; a
still-unresolved reference consults the visited set (cycle break) and the
registry; primitives, arrays, objects and combinators are rendered as in the
source. A `none` result means the source recursion does not return within
the given depth; every non-recursive branch yields `some`. -/
def schemaToType (schemas : SchemaMap) : Nat → Schema → List String → Option String
  | 0, _, _ => none
  | Nat.succ fuel, schema, visited =>
    let resolved := OpenAPIParser.resolveSchema schemas schema
    match resolved with
    | .refS r =>
        let typeName := replaceOnce OpenAPIParser.refPathMarker "" r
        if visited.contains typeName then some typeName
        else
          match mapGet schemas typeName with
          | some referencedSchema =>
              schemaToType schemas fuel referencedSchema (typeName :: visited)
          | none => some typeName
    | .strS enumVals _ _ =>
        match enumVals with
        | some vs => some (enumUnion vs)
        | none => some "string"
    | .numS _ _ _ => some "number"
    | .boolS _ => some "boolean"
    | .arrS items =>
        (schemaToType schemas fuel items visited).map (fun t => "Array<" ++ t ++ ">")
    | .objS properties required _ =>
        match properties with
        | none => some "Record<string, unknown>"
        | some props =>
            (traverseOption
                (fun kv => (schemaToType schemas fuel kv.2 visited).map (propLine required kv))
                props).map objBody
    | .oneOfS ss =>
        (traverseOption (fun s => schemaToType schemas fuel s visited) ss).map
          (String.intercalate " | ")
    | .allOfS ss =>
        (traverseOption (fun s => schemaToType schemas fuel s visited) ss).map
          (String.intercalate " & ")
    | .anyOfS ss =>
        (traverseOption (fun s => schemaToType schemas fuel s visited) ss).map
          (String.intercalate " | ")

/-- Filter predicate of extractErrorTypes: parseInt of the status key is a
number at least 400 (NaN compares false). -/
def isErrorStatusKey (status : String) : Bool :=
  match parseIntJS status with
  | some n => decide (400 ≤ n)
  | none => false

/-- Mirror of `TypeScriptClientGenerator.extractErrorTypes`: keep the response
status keys whose parseInt value is at least 400, in the order Object.keys
enumerates them (array-index keys ascending numerically, then other keys in
insertion order); none for an empty list, the bare numeral for a singleton,
the pipe-joined union otherwise. The getD 0 default in the map step is never
taken (the filter guarantees a parsed value). -/
def extractErrorTypes (responses : List (String × ResponseObj)) : Option String :=
  let errorStatuses :=
    ((jsObjectKeys (responses.map Prod.fst)).filter isErrorStatusKey).map
      (fun status => (parseIntJS status).getD 0)
  match errorStatuses with
  | [] => none
  | [e] => some (toString e)
  | _ => some (String.intercalate " | " (errorStatuses.map toString))

/-- The return type emitted by generateEndpointMethod for an endpoint:
`Promise<ApiResult<TResponse>>` extended with the error parameter exactly when
extractErrorTypes produced a JS-truthy (non-null, non-empty) string. -/
def methodReturnType (errorTypes : Option String) : String :=
  let errPart :=
    match errorTypes with
    | some e => if e = "" then "" else ", " ++ e
    | none => ""
  "Promise<ApiResult<TResponse" ++ errPart ++ ">>"

/-- JS short-circuit or on optional response values (an object is truthy). -/
def jsOrResponse (a b : Option ResponseObj) : Option ResponseObj :=
  match a with
  | some r => some r
  | none => b

/-- Mirror of `TypeScriptClientGenerator.extractResponseType`: the success
response is responses[200] or-else responses[201] or-else responses[204]
(JS short-circuit or on object lookups); its application/json schema —
reached through the optional chain successResponse?.content?.[json]?.schema,
modelled by Option.bind — is resolved and synthesized, and any absence along
the chain degrades to the literal type string unknown. -/
def extractResponseType (schemas : SchemaMap) (fuel : Nat)
    (responses : List (String × ResponseObj)) : Option String :=
  let successResponse :=
    jsOrResponse (mapGet responses "200")
      (jsOrResponse (mapGet responses "201") (mapGet responses "204"))
  match successResponse.bind (fun r =>
      r.content.bind (fun content =>
        (mapGet content "application/json").bind (fun mt => mt.schema))) with
  | some s => schemaToType schemas fuel (OpenAPIParser.resolveSchema schemas s) []
  | none => some "unknown"

/-- JS replace(/[^a-zA-Z0-9]/g, underscore): every character outside the
ASCII alphanumeric class becomes an underscore. -/
def underscoreNonAlnum (s : String) : String :=
  String.mk (s.data.map (fun c => if isAsciiAlnum c then c else '_'))

/-- JS replace(/^[0-9]/, underscore-then-match): a leading digit gains a
leading underscore. -/
def escapeLeadingDigit (s : String) : String :=
  match s.data with
  | c :: cs => if c.isDigit then String.mk ('_' :: c :: cs) else s
  | [] => s

/-- JS replace(/([a-z])([A-Z])/g, dollar1-underscore-dollar2): insert an
underscore inside each lower-upper pair. The global regex scan resumes after
each matched pair, which coincides with this left-to-right rewrite because an
uppercase character never starts a match. -/
def camelSplitList : List Char → List Char
  | a :: b :: rest =>
      if a.isLower && b.isUpper then a :: '_' :: camelSplitList (b :: rest)
      else a :: camelSplitList (b :: rest)
  | l => l

/-- Mirror of `TypeScriptClientGenerator.sanitizeMethodName`: underscore
non-alphanumerics, escape a leading digit, split camel boundaries, lowercase. -/
def sanitizeMethodName (name : String) : String :=
  toLowerString (String.mk (camelSplitList (escapeLeadingDigit (underscoreNonAlnum name)).data))

end TypeScriptClientGenerator

namespace ExampleGenerator

/-- Mirror of `ExampleGenerator.sanitizeMethodName` (src/src/example-generator.ts):
the example emitter carries its own copy of the sanitizer, character for
character the same chain of replacements. -/
def sanitizeMethodName (name : String) : String :=
  toLowerString
    (String.mk
      (TypeScriptClientGenerator.camelSplitList
        (TypeScriptClientGenerator.escapeLeadingDigit
          (TypeScriptClientGenerator.underscoreNonAlnum name)).data))

end ExampleGenerator

namespace OpenAPIParser

/-- Endpoint list as the spec words it: for each path entry in document
order, for each method of the fixed precedence order get, post, put, patch,
delete that is present on the entry, one endpoint; absent methods are
skipped. -/
def extractEndpointsSpec (spec : OpenAPISpecDoc) : List Endpoint :=
  spec.paths.flatMap (fun entry =>
    methodOrder.filterMap (fun method =>
      (entry.2.getOp method).map (buildEndpoint entry.1 entry.2 method)))

end OpenAPIParser

/-- Error statuses of a response set as the original claim words them: the
keys whose parseInt value is a number at least 400, in declared order. Used
to state the counterexample; the program follows jsObjectKeys order instead. -/
def errorStatusKeys (responses : List (String × ResponseObj)) : List Int :=
  (responses.map Prod.fst).filterMap (fun k =>
    (parseIntJS k).bind (fun n => if 400 ≤ n then some n else none))

/-- Error statuses in the order the program visits keys: the Object.keys
enumeration of the response record, filtered to keys parsing at least 400. -/
def errorStatusKeysJS (responses : List (String × ResponseObj)) : List Int :=
  (jsObjectKeys (responses.map Prod.fst)).filterMap (fun k =>
    (parseIntJS k).bind (fun n => if 400 ≤ n then some n else none))

/-- The fixed success-status priority order of the spec. -/
def successKeyOrder : List String := ["200", "201", "204"]

/-- Success-response selection as the spec words it: check the keys 200, 201,
204 in that fixed order; the first present key wins. -/
def chosenSuccess (responses : List (String × ResponseObj)) : Option ResponseObj :=
  match successKeyOrder.find? (fun k => (mapGet responses k).isSome) with
  | some k => mapGet responses k
  | none => none

/-- JSON-media-type schema of a response declaration, when any. -/
def responseJsonSchema (r : ResponseObj) : Option Schema :=
  r.content.bind (fun content =>
    (mapGet content "application/json").bind (fun mt => mt.schema))

/-- Characters admissible in an emitted client method name: lowercase ASCII
letters, digits, underscore. -/
def isValidMethodChar (c : Char) : Bool :=
  c.isLower || c.isDigit || c == '_'

/-- The self-referential registry of C1: schema A is an object whose property
references A itself. -/
def schemaA : Schema :=
  .objS (some [("self", .refS "#/components/schemas/A")]) none none

/-- Registry holding only the self-referential schema A. -/
def registryA : SchemaMap := [("A", schemaA)]

/-- Mutually referential schema A of C2: an object with a property
referencing B. -/
def schemaMutA : Schema :=
  .objS (some [("b", .refS "#/components/schemas/B")]) none none

/-- Mutually referential schema B of C2: an object with a property
referencing A. -/
def schemaMutB : Schema :=
  .objS (some [("a", .refS "#/components/schemas/A")]) none none

/-- Registry holding the mutually referential pair A, B. -/
def registryAB : SchemaMap := [("A", schemaMutA), ("B", schemaMutB)]

/-- Concrete operation used by witness instances: no operationId, one
query-level parameter, a 200 response. -/
def opW : Operation :=
  { operationId := none
    summary := none
    description := none
    parameters := some [{ name := "limit", location := "query", required := some false,
                          description := none, schema := none, style := none }]
    requestBody := none
    responses := [("200", { description := "ok", content := none })]
    tags := none }

/-- Concrete path item used by witness instances: a get operation plus one
path-level parameter. -/
def itemW : PathItem :=
  { get := some opW
    post := none
    put := none
    patch := none
    delete := none
    parameters := some [{ name := "petId", location := "path", required := some true,
                          description := none, schema := none, style := none }] }

/-- Concrete document used by witness instances: a single path with a get
operation. -/
def docW : OpenAPISpecDoc :=
  { openapi := "3.0.0"
    info := { title := "Pet Store API", version := "1.0.0", description := none }
    servers := none
    paths := [("/pets/\x7bpetId\x7d", itemW)]
    components := none }

/-- Operation with a duplicate-named operation-level parameter, for the C7
witness. -/
def opDup : Operation :=
  { operationId := some "getPet"
    summary := none
    description := none
    parameters := some [{ name := "petId", location := "query", required := some false,
                          description := none, schema := none, style := none }]
    requestBody := none
    responses := [("200", { description := "ok", content := none })]
    tags := none }

/-- Path item whose path-level parameter shares its name with the
operation-level one of opDup, for the C7 witness. -/
def itemDup : PathItem :=
  { get := some opDup
    post := none
    put := none
    patch := none
    delete := none
    parameters := some [{ name := "petId", location := "path", required := some true,
                          description := none, schema := none, style := none }] }

/-- Document exercising duplicate parameter names, for the C7 witness. -/
def docDup : OpenAPISpecDoc :=
  { openapi := "3.0.0"
    info := { title := "Dup API", version := "1.0.0", description := none }
    servers := none
    paths := [("/pets/\x7bpetId\x7d", itemDup)]
    components := none }

/-- Response set with only a success status, for the C4 witness. -/
def respOnly200 : List (String × ResponseObj) :=
  [("200", { description := "ok", content := none })]

/-- Response set with a single error status, for the C4 witness. -/
def respOnly404 : List (String × ResponseObj) :=
  [("404", { description := "nf", content := none })]

/-- Response set whose error statuses are declared in descending order,
exhibiting the ascending Object.keys enumeration. -/
def respDesc : List (String × ResponseObj) :=
  [("500", { description := "err", content := none }),
   ("404", { description := "nf", content := none })]

/-- A sequencing that succeeds pointwise in f succeeds with the same result
for any g that agrees on the succeeding points. -/
theorem traverseOption_mono {α β : Type} {f g : α → Option β}
    (l : List α) (h : ∀ x ∈ l, ∀ y, f x = some y → g x = some y) :
    ∀ ys, TypeScriptClientGenerator.traverseOption f l = some ys →
      TypeScriptClientGenerator.traverseOption g l = some ys := by
  induction l with
  | nil => intro ys hy; exact hy
  | cons x xs ih =>
      intro ys hy
      unfold TypeScriptClientGenerator.traverseOption at hy ⊢
      cases hfx : f x with
      | none => rw [hfx] at hy; exact absurd hy (by simp)
      | some y =>
          rw [hfx] at hy
          cases hxs : TypeScriptClientGenerator.traverseOption f xs with
          | none => rw [hxs] at hy; exact absurd hy (by simp)
          | some ys0 =>
              rw [hxs] at hy
              rw [h x (by simp) y hfx, ih (fun a ha => h a (List.mem_cons_of_mem _ ha)) ys0 hxs]
              exact hy

/-- Fuel monotonicity of schemaToType: a run that returns within depth n
returns the same type expression within any larger depth. -/
theorem schemaToType_mono (schemas : SchemaMap) :
    ∀ n m, n ≤ m → ∀ s v t, TypeScriptClientGenerator.schemaToType schemas n s v = some t →
      TypeScriptClientGenerator.schemaToType schemas m s v = some t := by
  intro n
  induction n with
  | zero =>
      intro m _ s v t h
      exact absurd h (by simp [TypeScriptClientGenerator.schemaToType])
  | succ n ih =>
      intro m hm s v t h
      obtain ⟨m1, rfl⟩ : ∃ m1, m = m1 + 1 := ⟨m - 1, by omega⟩
      have hm1 : n ≤ m1 := by omega
      simp only [TypeScriptClientGenerator.schemaToType] at h ⊢
      cases hres : OpenAPIParser.resolveSchema schemas s with
      | refS r =>
          simp only [hres] at h ⊢
          by_cases hc : v.contains (replaceOnce OpenAPIParser.refPathMarker "" r)
          · rw [if_pos hc] at h ⊢
            exact h
          · rw [if_neg hc] at h ⊢
            cases hmg : mapGet schemas (replaceOnce OpenAPIParser.refPathMarker "" r) with
            | some referencedSchema =>
                rw [hmg] at h
                exact ih m1 hm1 _ _ _ h
            | none =>
                rw [hmg] at h
                exact h
      | strS enumVals fmt dflt => simp only [hres] at h ⊢; exact h
      | numS isInt fmt dflt => simp only [hres] at h ⊢; exact h
      | boolS dflt => simp only [hres] at h ⊢; exact h
      | arrS items =>
          simp only [hres] at h ⊢
          rw [Option.map_eq_some'] at h ⊢
          obtain ⟨t1, hin, rfl⟩ := h
          exact ⟨t1, ih m1 hm1 _ _ _ hin, rfl⟩
      | objS properties required addl =>
          simp only [hres] at h ⊢
          cases properties with
          | none => exact h
          | some props =>
              rw [Option.map_eq_some'] at h ⊢
              obtain ⟨lines, htr, rfl⟩ := h
              refine ⟨lines, ?_, rfl⟩
              refine traverseOption_mono props ?_ lines htr
              intro kv _ y hy
              rw [Option.map_eq_some'] at hy ⊢
              obtain ⟨t2, hin, rfl⟩ := hy
              exact ⟨t2, ih m1 hm1 _ _ _ hin, rfl⟩
      | oneOfS ss =>
          simp only [hres] at h ⊢
          rw [Option.map_eq_some'] at h ⊢
          obtain ⟨ts, htr, rfl⟩ := h
          exact ⟨ts, traverseOption_mono ss (fun a _ y hy => ih m1 hm1 _ _ _ hy) ts htr, rfl⟩
      | allOfS ss =>
          simp only [hres] at h ⊢
          rw [Option.map_eq_some'] at h ⊢
          obtain ⟨ts, htr, rfl⟩ := h
          exact ⟨ts, traverseOption_mono ss (fun a _ y hy => ih m1 hm1 _ _ _ hy) ts htr, rfl⟩
      | anyOfS ss =>
          simp only [hres] at h ⊢
          rw [Option.map_eq_some'] at h ⊢
          obtain ⟨ts, htr, rfl⟩ := h
          exact ⟨ts, traverseOption_mono ss (fun a _ y hy => ih m1 hm1 _ _ _ hy) ts htr, rfl⟩

/-- Folding the inner method loop appends exactly the endpoints of the
present methods, in method order. -/
theorem pushEndpoint_go (path : String) (item : PathItem) (ms : List HttpMethod)
    (acc : List Endpoint) :
    ms.foldl (OpenAPIParser.pushEndpoint path item) acc
      = acc ++ ms.filterMap (fun method =>
          (item.getOp method).map (OpenAPIParser.buildEndpoint path item method)) := by
  induction ms generalizing acc with
  | nil => simp
  | cons m ms ih =>
      rw [List.foldl_cons, ih]
      unfold OpenAPIParser.pushEndpoint
      cases h : item.getOp m with
      | none => simp [h]
      | some operation => simp [h]

/-- Folding the outer path loop appends the per-entry lists in document
order. -/
theorem extract_go (paths : List (String × PathItem)) (acc : List Endpoint) :
    paths.foldl
      (fun endpoints entry =>
        methodOrder.foldl (OpenAPIParser.pushEndpoint entry.1 entry.2) endpoints) acc
    = acc ++ paths.flatMap (fun entry =>
        methodOrder.filterMap (fun method =>
          (entry.2.getOp method).map (OpenAPIParser.buildEndpoint entry.1 entry.2 method))) := by
  induction paths generalizing acc with
  | nil => simp
  | cons p ps ih =>
      rw [List.foldl_cons, ih, pushEndpoint_go]
      simp

/-- The loop implementation of extractEndpoints coincides with its
flatMap/filterMap description. -/
theorem extractEndpoints_eq (spec : OpenAPISpecDoc) :
    OpenAPIParser.extractEndpoints spec = OpenAPIParser.extractEndpointsSpec spec := by
  rw [OpenAPIParser.extractEndpoints, OpenAPIParser.extractEndpointsSpec, extract_go]
  simp

/-- C1: the claim asserts that synthesizing a named schema A that is an
object whose property references A terminates with the bare name A at the
cyclic point. The code diverges instead: resolveSchema inlines the
resolvable reference before the visited-set check in schemaToType, so the
cycle break never fires and the visited set never grows; for every recursion
depth bound the fuel-indexed embedding returns none, both when synthesis
starts from A's schema and when it starts from a Reference to A, with an
empty visited set. -/
theorem selfReferential_synthesis_diverges : ∀ fuel,
    TypeScriptClientGenerator.schemaToType registryA fuel
        (.refS "#/components/schemas/A") [] = none ∧
    TypeScriptClientGenerator.schemaToType registryA fuel schemaA [] = none := by
  intro n
  induction n with
  | zero => exact ⟨rfl, rfl⟩
  | succ n ih =>
      have hobj : TypeScriptClientGenerator.schemaToType registryA (n+1) schemaA [] = none := by
        simp only [TypeScriptClientGenerator.schemaToType]
        have hres : OpenAPIParser.resolveSchema registryA schemaA = schemaA := rfl
        rw [hres]
        simp only [schemaA, TypeScriptClientGenerator.traverseOption, ih.1]
        rfl
      refine ⟨?_, hobj⟩
      simp only [TypeScriptClientGenerator.schemaToType]
      have hres : OpenAPIParser.resolveSchema registryA
          (.refS "#/components/schemas/A") = schemaA := rfl
      rw [hres]
      simp only [schemaA, TypeScriptClientGenerator.traverseOption, ih.1]
      rfl

/-- C2: the claim asserts that with mutually referential object schemas A
and B (each holding a property referencing the other) synthesizing A
terminates with one inline expansion of B. The code diverges instead, for
the same reason as the self-referential case: every resolvable reference is
inlined before the visited-set check, so for every recursion depth bound the
fuel-indexed embedding returns none on A's schema (and equally on B's and on
bare references to either), with an empty visited set. -/
theorem mutual_synthesis_diverges : ∀ fuel,
    TypeScriptClientGenerator.schemaToType registryAB fuel schemaMutA [] = none ∧
    TypeScriptClientGenerator.schemaToType registryAB fuel
        (.refS "#/components/schemas/A") [] = none ∧
    TypeScriptClientGenerator.schemaToType registryAB fuel schemaMutB [] = none ∧
    TypeScriptClientGenerator.schemaToType registryAB fuel
        (.refS "#/components/schemas/B") [] = none := by
  intro n
  induction n with
  | zero => exact ⟨rfl, rfl, rfl, rfl⟩
  | succ n ih =>
      have hA : TypeScriptClientGenerator.schemaToType registryAB (n+1) schemaMutA [] = none := by
        simp only [TypeScriptClientGenerator.schemaToType]
        have hres : OpenAPIParser.resolveSchema registryAB schemaMutA = schemaMutA := rfl
        rw [hres]
        simp only [schemaMutA, TypeScriptClientGenerator.traverseOption, ih.2.2.2]
        rfl
      have hB : TypeScriptClientGenerator.schemaToType registryAB (n+1) schemaMutB [] = none := by
        simp only [TypeScriptClientGenerator.schemaToType]
        have hres : OpenAPIParser.resolveSchema registryAB schemaMutB = schemaMutB := rfl
        rw [hres]
        simp only [schemaMutB, TypeScriptClientGenerator.traverseOption, ih.2.1]
        rfl
      have hrA : TypeScriptClientGenerator.schemaToType registryAB (n+1)
          (.refS "#/components/schemas/A") [] = none := by
        simp only [TypeScriptClientGenerator.schemaToType]
        have hres : OpenAPIParser.resolveSchema registryAB
            (.refS "#/components/schemas/A") = schemaMutA := rfl
        rw [hres]
        simp only [schemaMutA, TypeScriptClientGenerator.traverseOption, ih.2.2.2]
        rfl
      have hrB : TypeScriptClientGenerator.schemaToType registryAB (n+1)
          (.refS "#/components/schemas/B") [] = none := by
        simp only [TypeScriptClientGenerator.schemaToType]
        have hres : OpenAPIParser.resolveSchema registryAB
            (.refS "#/components/schemas/B") = schemaMutB := rfl
        rw [hres]
        simp only [schemaMutB, TypeScriptClientGenerator.traverseOption, ih.2.1]
        rfl
      exact ⟨hA, hrA, hB, hrB⟩

/-- C3: resolveSchema is the identity on non-reference nodes; a reference is
looked up under the bare name obtained by stripping the registry-path
marker, yields the registry schema when the name is present, and is returned
unchanged when the name is absent — the function is total and never raises. -/
theorem resolveSchema_total_contract (schemas : SchemaMap) (s : Schema) :
    ((∀ r, s ≠ .refS r) → OpenAPIParser.resolveSchema schemas s = s) ∧
    (∀ r, s = .refS r →
      (∀ target,
          mapGet schemas (replaceOnce OpenAPIParser.refPathMarker "" r) = some target →
          OpenAPIParser.resolveSchema schemas s = target) ∧
      (mapGet schemas (replaceOnce OpenAPIParser.refPathMarker "" r) = none →
          OpenAPIParser.resolveSchema schemas s = s)) := by
  constructor
  · intro h
    cases s with
    | refS r => exact absurd rfl (h r)
    | strS a b c => rfl
    | numS a b c => rfl
    | boolS a => rfl
    | arrS a => rfl
    | objS a b c => rfl
    | oneOfS a => rfl
    | allOfS a => rfl
    | anyOfS a => rfl
  · intro r hr
    subst hr
    constructor
    · intro target ht
      simp [OpenAPIParser.resolveSchema, ht]
    · intro hn
      simp [OpenAPIParser.resolveSchema, hn]

/-- Witness for C3 at concrete inputs: a resolvable reference yields the
registry schema, a dangling reference comes back unchanged, and a primitive
node is returned as given. -/
theorem resolveSchema_total_contract_witness :
    OpenAPIParser.resolveSchema [("User", .boolS none)]
        (.refS "#/components/schemas/User") = .boolS none ∧
    OpenAPIParser.resolveSchema [("User", .boolS none)]
        (.refS "#/components/schemas/Missing") = .refS "#/components/schemas/Missing" ∧
    OpenAPIParser.resolveSchema [("User", .boolS none)] (.strS none none none)
      = .strS none none none :=
  ⟨((resolveSchema_total_contract [("User", .boolS none)] _).2 _ rfl).1 _ rfl,
   ((resolveSchema_total_contract [("User", .boolS none)] _).2 _ rfl).2 rfl,
   (resolveSchema_total_contract [("User", .boolS none)] _).1
     (fun _ h => Schema.noConfusion h)⟩

/-- The filter-then-reparse pipeline of extractErrorTypes produces exactly
the parsed error-status keys. -/
theorem filter_parse_eq (l : List String) :
    (l.filter TypeScriptClientGenerator.isErrorStatusKey).map
        (fun status => (parseIntJS status).getD 0)
      = l.filterMap (fun k => (parseIntJS k).bind (fun n => if 400 ≤ n then some n else none)) := by
  induction l with
  | nil => rfl
  | cons k ks ih =>
      rw [List.filter_cons, List.filterMap_cons]
      cases h : parseIntJS k with
      | none => simp [TypeScriptClientGenerator.isErrorStatusKey, h, ih]
      | some n =>
          by_cases hn : 400 ≤ n
          · simp [TypeScriptClientGenerator.isErrorStatusKey, h, hn, ih]
          · simp [TypeScriptClientGenerator.isErrorStatusKey, h, hn, ih]

/-- A decimal digit is not a parseInt whitespace character. -/
theorem isJsSpace_eq_false_of_isDigit (c : Char) (h : c.isDigit = true) :
    isJsSpace c = false := by
  cases hsp : isJsSpace c
  · rfl
  · exfalso
    simp only [isJsSpace, Bool.or_eq_true, beq_iff_eq] at hsp
    rcases hsp with ((((rfl | rfl) | rfl) | rfl) | rfl) | rfl <;>
      exact absurd h (by decide)

/-- An all-digit character list is its own digit prefix. -/
theorem takeWhile_digits (cs : List Char) (h : cs.all Char.isDigit = true) :
    cs.takeWhile Char.isDigit = cs :=
  List.takeWhile_eq_self_iff.mpr (List.all_eq_true.mp h)

/-- parseInt skips no characters of a digit-led list. -/
theorem dropWhile_digits (c : Char) (cs : List Char) (h : c.isDigit = true) :
    (c :: cs).dropWhile isJsSpace = c :: cs := by
  rw [List.dropWhile_cons, isJsSpace_eq_false_of_isDigit c h]
  simp

/-- On a canonical array-index key parseInt returns exactly the index
value. -/
theorem parseIntJS_canonical (k : String) (n : Nat) (h : canonicalArrayIndex k = some n) :
    parseIntJS k = some (n : Int) := by
  cases hd : k.data with
  | nil => rw [canonicalArrayIndex, hd] at h; exact absurd h (by simp)
  | cons c cs =>
      simp only [canonicalArrayIndex, hd] at h
      by_cases hcond : ((c :: cs).all Char.isDigit = true ∧ (cs = [] ∨ c ≠ '0'))
      · rw [if_pos hcond] at h
        by_cases hbound : decCharsVal (c :: cs) < 4294967295
        · rw [if_pos hbound] at h
          obtain rfl : decCharsVal (c :: cs) = n := by simpa using h
          have hdig : c.isDigit = true := by
            have := List.all_eq_true.mp hcond.1 c (List.mem_cons_self _ _)
            exact this
          rw [parseIntJS, hd, dropWhile_digits c cs hdig]
          split
          · rename_i rest heq
            rw [List.cons.injEq] at heq
            exact absurd hdig (heq.1 ▸ by decide)
          · rename_i rest heq
            rw [List.cons.injEq] at heq
            exact absurd hdig (heq.1 ▸ by decide)
          · rw [parseIntJS.parseIntHexOrDec]
            · rw [parseIntDec, takeWhile_digits _ hcond.1]
              simp
            · intro x rest heq
              rw [List.cons.injEq] at heq
              rcases hcond.2 with hnil | hne
              · rw [hnil] at heq
                exact absurd heq.2 (by simp)
              · exact absurd heq.1 hne
        · rw [if_neg hbound] at h
          exact absurd h (by simp)
      · rw [if_neg hcond] at h
        exact absurd h (by simp)

/-- Insertion keeps only the inserted key and the previous elements. -/
theorem mem_insertByVal (k : String) (l : List String) :
    ∀ x ∈ insertByVal k l, x = k ∨ x ∈ l := by
  induction l with
  | nil => intro x hx; simp only [insertByVal, List.mem_singleton] at hx; exact Or.inl hx
  | cons y ys ih =>
      intro x hx
      rw [insertByVal] at hx
      by_cases hle : indexVal k ≤ indexVal y
      · rw [if_pos hle] at hx
        rcases List.mem_cons.mp hx with rfl | hx
        · exact Or.inl rfl
        · exact Or.inr hx
      · rw [if_neg hle] at hx
        rcases List.mem_cons.mp hx with rfl | hx
        · exact Or.inr (List.mem_cons_self _ _)
        · rcases ih x hx with h | h
          · exact Or.inl h
          · exact Or.inr (List.mem_cons_of_mem _ h)

/-- Sorting permutes within the original elements. -/
theorem mem_sortByVal (l : List String) : ∀ x ∈ sortByVal l, x ∈ l := by
  induction l with
  | nil => intro x hx; simp [sortByVal] at hx
  | cons y ys ih =>
      intro x hx
      rw [sortByVal] at hx
      rcases mem_insertByVal y (sortByVal ys) x hx with rfl | hx
      · exact List.mem_cons_self _ _
      · exact List.mem_cons_of_mem _ (ih x hx)

/-- Insertion preserves the ascending-by-index-value invariant. -/
theorem pairwise_insertByVal (k : String) (l : List String)
    (hl : l.Pairwise (fun a b => indexVal a ≤ indexVal b)) :
    (insertByVal k l).Pairwise (fun a b => indexVal a ≤ indexVal b) := by
  induction l with
  | nil => simp [insertByVal]
  | cons y ys ih =>
      rw [insertByVal]
      rcases List.pairwise_cons.mp hl with ⟨hy, hys⟩
      by_cases hle : indexVal k ≤ indexVal y
      · rw [if_pos hle]
        refine List.pairwise_cons.mpr ⟨?_, hl⟩
        intro b hb
        rcases List.mem_cons.mp hb with rfl | hb
        · exact hle
        · exact le_trans hle (hy b hb)
      · rw [if_neg hle]
        refine List.pairwise_cons.mpr ⟨?_, ih hys⟩
        intro b hb
        rcases mem_insertByVal k ys b hb with rfl | hb
        · omega
        · exact hy b hb

/-- The insertion sort produces an ascending-by-index-value sequence. -/
theorem pairwise_sortByVal (l : List String) :
    (sortByVal l).Pairwise (fun a b => indexVal a ≤ indexVal b) := by
  induction l with
  | nil => simp [sortByVal]
  | cons y ys ih =>
      rw [sortByVal]
      exact pairwise_insertByVal y (sortByVal ys) ih

/-- When every key is an array index the enumeration is just the ascending
sort. -/
theorem jsObjectKeys_all_canonical (keys : List String)
    (h : ∀ k ∈ keys, (canonicalArrayIndex k).isSome = true) :
    jsObjectKeys keys = sortByVal keys := by
  have h1 : keys.filter (fun k => (canonicalArrayIndex k).isSome) = keys :=
    List.filter_eq_self.mpr h
  have h2 : keys.filter (fun k => !(canonicalArrayIndex k).isSome) = [] := by
    rw [List.filter_eq_nil_iff]
    intro a ha
    simp [h a ha]
  rw [jsObjectKeys, h1, h2, List.append_nil]

/-- Over a response set whose keys are all array indexes, the parsed error
statuses come out ascending. -/
theorem errorStatusKeysJS_sorted (responses : List (String × ResponseObj))
    (hall : ∀ k ∈ responses.map Prod.fst, (canonicalArrayIndex k).isSome = true) :
    (errorStatusKeysJS responses).Pairwise (fun a b => a ≤ b) := by
  rw [errorStatusKeysJS, jsObjectKeys_all_canonical _ hall, List.pairwise_filterMap]
  refine (pairwise_sortByVal (responses.map Prod.fst)).imp_of_mem ?_
  intro a b ha hb hle x hx y hy
  obtain ⟨na, hna⟩ := Option.isSome_iff_exists.mp (hall a (mem_sortByVal _ a ha))
  obtain ⟨nb, hnb⟩ := Option.isSome_iff_exists.mp (hall b (mem_sortByVal _ b hb))
  rw [parseIntJS_canonical a na hna] at hx
  rw [parseIntJS_canonical b nb hnb] at hy
  simp only [Option.some_bind] at hx hy
  have hia : indexVal a = na := by simp [indexVal, hna]
  have hib : indexVal b = nb := by simp [indexVal, hnb]
  rw [hia, hib] at hle
  by_cases h4a : (400 : Int) ≤ (na : Int)
  · rw [if_pos h4a] at hx
    by_cases h4b : (400 : Int) ≤ (nb : Int)
    · rw [if_pos h4b] at hy
      obtain rfl : (na : Int) = x := by simpa using hx
      obtain rfl : (nb : Int) = y := by simpa using hy
      exact_mod_cast hle
    · rw [if_neg h4b] at hy
      exact absurd hy (by simp)
  · rw [if_neg h4a] at hx
    exact absurd hx (by simp)

/-- C4 (corrected): the error type parameter is computed from exactly the
response status keys that parse to a number at least 400, taken in the order
Object.keys enumerates them — array-index keys ascending by numeric value,
not in declared order; none yields no error parameter in the return type,
exactly one yields the bare numeric literal, several yield their pipe-joined
union, and over all-index-key response sets that union is ascending. -/
theorem errorStatus_aggregation_jsOrder (responses : List (String × ResponseObj)) :
    (errorStatusKeysJS responses = [] →
      TypeScriptClientGenerator.extractErrorTypes responses = none ∧
      TypeScriptClientGenerator.methodReturnType
          (TypeScriptClientGenerator.extractErrorTypes responses)
        = "Promise<ApiResult<TResponse>>") ∧
    (∀ n : Int, errorStatusKeysJS responses = [n] →
      TypeScriptClientGenerator.extractErrorTypes responses = some (toString n)) ∧
    (∀ n1 n2 : Int, ∀ rest : List Int, errorStatusKeysJS responses = n1 :: n2 :: rest →
      TypeScriptClientGenerator.extractErrorTypes responses
        = some (String.intercalate " | " ((errorStatusKeysJS responses).map toString))) ∧
    ((∀ k ∈ responses.map Prod.fst, (canonicalArrayIndex k).isSome = true) →
      (errorStatusKeysJS responses).Pairwise (fun a b => a ≤ b)) := by
  have hkey : ((jsObjectKeys (responses.map Prod.fst)).filter
        TypeScriptClientGenerator.isErrorStatusKey).map
      (fun status => (parseIntJS status).getD 0) = errorStatusKeysJS responses :=
    filter_parse_eq _
  refine ⟨?_, ?_, ?_, errorStatusKeysJS_sorted responses⟩
  · intro h
    constructor
    · simp only [TypeScriptClientGenerator.extractErrorTypes, hkey, h]
    · simp only [TypeScriptClientGenerator.extractErrorTypes, hkey, h,
        TypeScriptClientGenerator.methodReturnType]
      rfl
  · intro n h
    simp only [TypeScriptClientGenerator.extractErrorTypes, hkey, h]
  · intro n1 n2 rest h
    simp only [TypeScriptClientGenerator.extractErrorTypes, hkey, h]

/-- C4 (counterexample to the claim as stated): for a response set declaring
500 before 404 the declared-order union would be 500 | 404, but the program
emits 404 | 500 — Object.keys enumerates array-index status keys in
ascending numeric order, not declaration order. -/
theorem errorStatus_declared_order_counterexample :
    errorStatusKeys respDesc = [500, 404] ∧
    TypeScriptClientGenerator.extractErrorTypes respDesc = some "404 | 500" ∧
    TypeScriptClientGenerator.extractErrorTypes respDesc
      ≠ some (String.intercalate " | " ((errorStatusKeys respDesc).map toString)) := by
  refine ⟨by decide, by decide, ?_⟩
  intro h
  rw [show TypeScriptClientGenerator.extractErrorTypes respDesc = some "404 | 500" from
    by decide] at h
  exact absurd h (by decide)

/-- Witness for the corrected C4 at concrete response sets: no error status
omits the parameter, a single 404 gives the bare literal, 500 declared
before 404 still gives the ascending union, and that key list satisfies the
all-index-keys ordering conclusion. -/
theorem errorStatus_aggregation_jsOrder_witness :
    (TypeScriptClientGenerator.extractErrorTypes respOnly200 = none ∧
      TypeScriptClientGenerator.methodReturnType
          (TypeScriptClientGenerator.extractErrorTypes respOnly200)
        = "Promise<ApiResult<TResponse>>") ∧
    TypeScriptClientGenerator.extractErrorTypes respOnly404 = some "404" ∧
    TypeScriptClientGenerator.extractErrorTypes respDesc = some "404 | 500" ∧
    (errorStatusKeysJS respDesc).Pairwise (fun a b => a ≤ b) :=
  ⟨(errorStatus_aggregation_jsOrder respOnly200).1 rfl,
   ((errorStatus_aggregation_jsOrder respOnly404).2.1 404 rfl).trans rfl,
   ((errorStatus_aggregation_jsOrder respDesc).2.2.1 404 500 [] rfl).trans rfl,
   (errorStatus_aggregation_jsOrder respDesc).2.2.2 (by decide)⟩


/-- The or-else selection chain of extractResponseType coincides with the
first-present-key description of the spec. -/
theorem jsOr_chain_eq_chosen (responses : List (String × ResponseObj)) :
    TypeScriptClientGenerator.jsOrResponse (mapGet responses "200")
        (TypeScriptClientGenerator.jsOrResponse (mapGet responses "201") (mapGet responses "204"))
      = chosenSuccess responses := by
  cases h200 : mapGet responses "200" with
  | some r =>
      simp [TypeScriptClientGenerator.jsOrResponse, chosenSuccess, successKeyOrder,
        List.find?, h200]
  | none =>
      cases h201 : mapGet responses "201" with
      | some r =>
          simp [TypeScriptClientGenerator.jsOrResponse, chosenSuccess, successKeyOrder,
            List.find?, h200, h201]
      | none =>
          cases h204 : mapGet responses "204" with
          | some r =>
              simp [TypeScriptClientGenerator.jsOrResponse, chosenSuccess, successKeyOrder,
                List.find?, h200, h201, h204]
          | none =>
              simp [TypeScriptClientGenerator.jsOrResponse, chosenSuccess, successKeyOrder,
                List.find?, h200, h201, h204]

/-- C5: the success response is selected by checking the keys 200, 201, 204
in that fixed priority order, first present key winning; and whenever the
selected response (or the absence of any) provides no JSON-media-type
schema, the synthesized success type degrades to the literal unknown rather
than generation failing. -/
theorem responseType_priority (schemas : SchemaMap) (fuel : Nat)
    (responses : List (String × ResponseObj)) :
    TypeScriptClientGenerator.extractResponseType schemas fuel responses =
      (match (chosenSuccess responses).bind responseJsonSchema with
       | some s =>
           TypeScriptClientGenerator.schemaToType schemas fuel
             (OpenAPIParser.resolveSchema schemas s) []
       | none => some "unknown") ∧
    ((chosenSuccess responses).bind responseJsonSchema = none →
      TypeScriptClientGenerator.extractResponseType schemas fuel responses = some "unknown") := by
  have h1 : TypeScriptClientGenerator.extractResponseType schemas fuel responses =
      (match (chosenSuccess responses).bind responseJsonSchema with
       | some s =>
           TypeScriptClientGenerator.schemaToType schemas fuel
             (OpenAPIParser.resolveSchema schemas s) []
       | none => some "unknown") := by
    simp only [TypeScriptClientGenerator.extractResponseType, jsOr_chain_eq_chosen,
      responseJsonSchema]
  refine ⟨h1, fun hnone => ?_⟩
  rw [h1, hnone]


/-- An uppercase ASCII letter lowercases to a lowercase ASCII letter. -/
theorem toLower_isLower_of_isUpper (c : Char) (h : c.isUpper = true) :
    (c.toLower).isLower = true := by
  simp only [Char.isUpper, decide_eq_true_eq, Bool.and_eq_true, UInt32.le_def, BitVec.le_def,
    show ((65:UInt32)).toBitVec.toNat = 65 from rfl,
    show ((90:UInt32)).toBitVec.toNat = 90 from rfl] at h
  have hv : (c.toNat + 32).isValidChar := by
    left
    simp only [Char.toNat, UInt32.toNat]
    omega
  simp only [Char.toLower, Char.toNat, UInt32.toNat] at hv ⊢
  rw [if_pos (by omega)]
  simp only [Char.ofNat]
  rw [dif_pos hv]
  simp only [Char.isLower, Char.ofNatAux, UInt32.le_def, BitVec.le_def, decide_eq_true_eq,
    Bool.and_eq_true, BitVec.toNat_ofNat,
    show ((97:UInt32)).toBitVec.toNat = 97 from rfl,
    show ((122:UInt32)).toBitVec.toNat = 122 from rfl]
  constructor <;> simp <;> omega

/-- A character outside the uppercase ASCII range is fixed by toLower. -/
theorem toLower_eq_self_of_not_upper (c : Char) (h : c.isUpper = false) :
    c.toLower = c := by
  simp only [Char.isUpper, decide_eq_true_eq, Bool.and_eq_true, UInt32.le_def, BitVec.le_def,
    show ((65:UInt32)).toBitVec.toNat = 65 from rfl,
    show ((90:UInt32)).toBitVec.toNat = 90 from rfl, Bool.and_eq_false_iff,
    decide_eq_false_iff_not, not_le] at h
  simp only [Char.toLower, Char.toNat, UInt32.toNat]
  rw [if_neg]
  omega

/-- Lowercasing an alphanumeric-or-underscore character lands in the valid
method-name character class. -/
theorem toLower_valid (c : Char) (h : (isAsciiAlnum c || c == '_') = true) :
    isValidMethodChar c.toLower = true := by
  cases hu : c.isUpper with
  | true =>
      simp [isValidMethodChar, toLower_isLower_of_isUpper c hu]
  | false =>
      rw [toLower_eq_self_of_not_upper c hu]
      simp only [isAsciiAlnum, Char.isAlpha, hu, Bool.false_or, Bool.or_eq_true,
        beq_iff_eq] at h
      simp only [isValidMethodChar, Bool.or_eq_true, beq_iff_eq]
      rcases h with (h | h) | h
      · exact Or.inl (Or.inl h)
      · exact Or.inl (Or.inr h)
      · exact Or.inr h

/-- Lowercasing never turns a non-digit into a digit. -/
theorem toLower_not_digit (c : Char) (h : c.isDigit = false) :
    (c.toLower).isDigit = false := by
  cases hu : c.isUpper with
  | true =>
      have hl := toLower_isLower_of_isUpper c hu
      simp only [Char.isLower, decide_eq_true_eq, Bool.and_eq_true, UInt32.le_def, BitVec.le_def,
        show ((97:UInt32)).toBitVec.toNat = 97 from rfl,
        show ((122:UInt32)).toBitVec.toNat = 122 from rfl] at hl
      simp only [Char.isDigit, decide_eq_true_eq, UInt32.le_def, BitVec.le_def,
        show ((48:UInt32)).toBitVec.toNat = 48 from rfl,
        show ((57:UInt32)).toBitVec.toNat = 57 from rfl, Bool.and_eq_false_iff,
        decide_eq_false_iff_not, not_le]
      omega
  | false => rw [toLower_eq_self_of_not_upper c hu]; exact h

/-- Camel-boundary splitting only keeps input characters or inserts
underscores. -/
theorem camel_mem (l : List Char) :
    ∀ c ∈ TypeScriptClientGenerator.camelSplitList l, c ∈ l ∨ c = '_' := by
  induction l with
  | nil => intro c hc; simp [TypeScriptClientGenerator.camelSplitList] at hc
  | cons a t ih =>
      cases t with
      | nil =>
          intro c hc
          simp [TypeScriptClientGenerator.camelSplitList] at hc
          simp [hc]
      | cons b r =>
          intro c hc
          rw [TypeScriptClientGenerator.camelSplitList] at hc
          by_cases hab : (a.isLower && b.isUpper) = true
          · rw [if_pos hab] at hc
            rcases List.mem_cons.mp hc with rfl | hc
            · exact Or.inl (List.mem_cons_self _ _)
            · rcases List.mem_cons.mp hc with rfl | hc
              · exact Or.inr rfl
              · rcases ih c hc with hm | he
                · exact Or.inl (List.mem_cons_of_mem _ hm)
                · exact Or.inr he
          · rw [if_neg hab] at hc
            rcases List.mem_cons.mp hc with rfl | hc
            · exact Or.inl (List.mem_cons_self _ _)
            · rcases ih c hc with hm | he
              · exact Or.inl (List.mem_cons_of_mem _ hm)
              · exact Or.inr he

/-- Camel-boundary splitting preserves the first character. -/
theorem camel_head (l : List Char) :
    (TypeScriptClientGenerator.camelSplitList l).head? = l.head? := by
  cases l with
  | nil => rfl
  | cons a t =>
      cases t with
      | nil => rfl
      | cons b r =>
          rw [TypeScriptClientGenerator.camelSplitList]
          by_cases hab : (a.isLower && b.isUpper) = true
          · rw [if_pos hab]; rfl
          · rw [if_neg hab]; rfl

/-- After the first sanitization step every character is ASCII alphanumeric
or an underscore. -/
theorem under_chars (s : String) :
    ∀ c ∈ (TypeScriptClientGenerator.underscoreNonAlnum s).data,
      (isAsciiAlnum c || c == '_') = true := by
  intro c hc
  simp only [TypeScriptClientGenerator.underscoreNonAlnum, List.mem_map] at hc
  obtain ⟨c0, _, rfl⟩ := hc
  by_cases h : isAsciiAlnum c0 = true
  · simp [h]
  · simp [h]

/-- The digit-escaping step either leaves the character list unchanged or
prepends an underscore. -/
theorem escape_data (s : String) :
    (TypeScriptClientGenerator.escapeLeadingDigit s).data = s.data ∨
    (TypeScriptClientGenerator.escapeLeadingDigit s).data = '_' :: s.data := by
  cases hs : s.data with
  | nil =>
      left
      simp only [TypeScriptClientGenerator.escapeLeadingDigit, hs]
  | cons c cs =>
      simp only [TypeScriptClientGenerator.escapeLeadingDigit, hs]
      by_cases hd : c.isDigit = true
      · right
        rw [if_pos hd]
      · left
        rw [if_neg hd]
        exact hs

/-- After the digit-escaping step the first character is never a digit. -/
theorem escape_head_not_digit (s : String) :
    (TypeScriptClientGenerator.escapeLeadingDigit s).data.head?.all
      (fun c => !c.isDigit) = true := by
  cases hs : s.data with
  | nil => simp [TypeScriptClientGenerator.escapeLeadingDigit, hs]
  | cons c cs =>
      simp only [TypeScriptClientGenerator.escapeLeadingDigit, hs]
      by_cases hd : c.isDigit = true
      · rw [if_pos hd]
        simp
      · rw [if_neg hd]
        simp only [hs, List.head?_cons, Option.all_some]
        simp [hd]

/-- C10: for every input string the sanitized method name consists only of
lowercase ASCII letters, digits and underscores, its first character (when
any) is never a digit, and the example emitter sanitizer computes exactly
the same function as the client generator sanitizer. -/
theorem sanitize_valid_identifier (name : String) :
    ((TypeScriptClientGenerator.sanitizeMethodName name).data.all isValidMethodChar = true) ∧
    ((TypeScriptClientGenerator.sanitizeMethodName name).data.head?.all
        (fun c => !c.isDigit) = true) ∧
    TypeScriptClientGenerator.sanitizeMethodName name
      = ExampleGenerator.sanitizeMethodName name := by
  refine ⟨?_, ?_, rfl⟩
  · rw [List.all_eq_true]
    intro c hc
    simp only [TypeScriptClientGenerator.sanitizeMethodName, toLowerString, List.mem_map] at hc
    obtain ⟨c0, hc0, rfl⟩ := hc
    apply toLower_valid
    rcases camel_mem _ c0 hc0 with hm | rfl
    · rcases escape_data (TypeScriptClientGenerator.underscoreNonAlnum name) with he | he
      · rw [he] at hm
        exact under_chars name c0 hm
      · rw [he] at hm
        rcases List.mem_cons.mp hm with rfl | hm
        · simp
        · exact under_chars name c0 hm
    · simp
  · have hdata : (TypeScriptClientGenerator.sanitizeMethodName name).data
        = (TypeScriptClientGenerator.camelSplitList
            (TypeScriptClientGenerator.escapeLeadingDigit
              (TypeScriptClientGenerator.underscoreNonAlnum name)).data).map Char.toLower := rfl
    rw [hdata, List.head?_map, camel_head]
    have hesc := escape_head_not_digit (TypeScriptClientGenerator.underscoreNonAlnum name)
    cases hh : (TypeScriptClientGenerator.escapeLeadingDigit
        (TypeScriptClientGenerator.underscoreNonAlnum name)).data.head? with
    | none => simp
    | some c0 =>
        rw [hh] at hesc
        simp only [Option.all_some] at hesc
        simp only [Option.map_some', Option.all_some]
        simp only [Bool.not_eq_true'] at hesc
        simp [toLower_not_digit c0 hesc]

/-- Witness for C5 at a concrete response set: a present 200 key without any
JSON media type degrades the success type to unknown while the method is
still produced. -/
theorem responseType_priority_witness :
    TypeScriptClientGenerator.extractResponseType [] 1 respOnly200 = some "unknown" :=
  (responseType_priority [] 1 respOnly200).2 rfl

/-- A derived operation id always starts with the non-empty lowercased
method name, hence is never empty. -/
theorem genOpId_ne_empty (m : HttpMethod) (p : String) :
    OpenAPIParser.generateOperationId m.toStr p ≠ "" := by
  have hlen : 1 ≤ (toLowerString m.toStr).length := by cases m <;> decide
  intro h
  simp only [OpenAPIParser.generateOperationId] at h
  have h2 := congrArg String.length h
  rw [String.length_append] at h2
  rw [show ("" : String).length = 0 from rfl] at h2
  omega

/-- Every endpoint of the builder output arises from a document path entry
and a present method via buildEndpoint. -/
theorem mem_extractEndpoints (spec : OpenAPISpecDoc) (e : Endpoint)
    (he : e ∈ OpenAPIParser.extractEndpoints spec) :
    ∃ p item m op, (p, item) ∈ spec.paths ∧ PathItem.getOp item m = some op ∧
      e = OpenAPIParser.buildEndpoint p item m op := by
  rw [extractEndpoints_eq, OpenAPIParser.extractEndpointsSpec] at he
  rw [List.mem_flatMap] at he
  obtain ⟨entry, hentry, he⟩ := he
  rw [List.mem_filterMap] at he
  obtain ⟨m, _, he⟩ := he
  rw [Option.map_eq_some'] at he
  obtain ⟨op, hop, rfl⟩ := he
  exact ⟨entry.1, entry.2, m, op, by simpa using hentry, hop, rfl⟩

/-- C6: a missing (or empty, JS-falsy) operationId is derived as the
lowercase method concatenated with the brace-stripped, capitalized path
segments in path order — concretely, get on /users/\x7bid\x7d/posts yields
getUsersIdPosts — and every endpoint the builder produces carries a
non-empty operationId. -/
theorem operationId_derivation :
    OpenAPIParser.generateOperationId "get" "/users/\x7bid\x7d/posts" = "getUsersIdPosts" ∧
    (∀ (p : String) (item : PathItem) (m : HttpMethod) (op : Operation),
      PathItem.getOp item m = some op →
      (op.operationId = none ∨ op.operationId = some "") →
      (OpenAPIParser.buildEndpoint p item m op).operationId
        = OpenAPIParser.generateOperationId m.toStr p) ∧
    (∀ (spec : OpenAPISpecDoc), ∀ e ∈ OpenAPIParser.extractEndpoints spec,
      e.operationId ≠ "") := by
  refine ⟨by decide, ?_, ?_⟩
  · intro p item m op _ hmiss
    rcases hmiss with hn | he
    · simp [OpenAPIParser.buildEndpoint, hn]
    · simp [OpenAPIParser.buildEndpoint, he]
  · intro spec e he
    obtain ⟨p, item, m, op, _, _, rfl⟩ := mem_extractEndpoints spec e he
    cases hoid : op.operationId with
    | none =>
        have hgen : (OpenAPIParser.buildEndpoint p item m op).operationId
            = OpenAPIParser.generateOperationId m.toStr p := by
          simp [OpenAPIParser.buildEndpoint, hoid]
        rw [hgen]
        exact genOpId_ne_empty m p
    | some oid =>
        by_cases hemp : oid = ""
        · subst hemp
          have hgen : (OpenAPIParser.buildEndpoint p item m op).operationId
              = OpenAPIParser.generateOperationId m.toStr p := by
            simp [OpenAPIParser.buildEndpoint, hoid]
          rw [hgen]
          exact genOpId_ne_empty m p
        · have hkeep : (OpenAPIParser.buildEndpoint p item m op).operationId = oid := by
            simp [OpenAPIParser.buildEndpoint, hoid, hemp]
          rw [hkeep]
          exact hemp

/-- Witness for C6 at the concrete document: the endpoint built for the
operationId-less get operation carries the derived id, and it is non-empty. -/
theorem operationId_derivation_witness :
    (OpenAPIParser.buildEndpoint "/pets/\x7bpetId\x7d" itemW .get opW).operationId
        = OpenAPIParser.generateOperationId "get" "/pets/\x7bpetId\x7d" ∧
    (OpenAPIParser.buildEndpoint "/pets/\x7bpetId\x7d" itemW .get opW).operationId ≠ "" := by
  constructor
  · exact operationId_derivation.2.1 "/pets/\x7bpetId\x7d" itemW .get opW rfl (Or.inl rfl)
  · have hx : OpenAPIParser.extractEndpoints docW
        = [OpenAPIParser.buildEndpoint "/pets/\x7bpetId\x7d" itemW .get opW] := rfl
    exact operationId_derivation.2.2 docW _ (hx ▸ List.mem_singleton.mpr rfl)

/-- C7: for a method present on a path entry, the built endpoint's parameter
sequence is the path-level parameters in declared order followed by the
operation-level parameters in declared order, and same-named parameters are
appended rather than deduplicated — each name occurs exactly as often as in
the two levels combined. -/
theorem parameter_merge (p : String) (item : PathItem) (m : HttpMethod) (op : Operation)
    (_hop : PathItem.getOp item m = some op) :
    (OpenAPIParser.buildEndpoint p item m op).parameters
      = orEmptyParams item.parameters ++ orEmptyParams op.parameters ∧
    (∀ nm : String,
      ((OpenAPIParser.buildEndpoint p item m op).parameters.filter
          (fun q => q.name == nm)).length
        = ((orEmptyParams item.parameters).filter (fun q => q.name == nm)).length
          + ((orEmptyParams op.parameters).filter (fun q => q.name == nm)).length) := by
  have hb : (OpenAPIParser.buildEndpoint p item m op).parameters
      = orEmptyParams item.parameters ++ orEmptyParams op.parameters := rfl
  refine ⟨hb, fun nm => ?_⟩
  rw [hb, List.filter_append, List.length_append]

/-- Witness for C7 at a concrete entry whose path-level and operation-level
parameters share the name petId: both occurrences survive the merge. -/
theorem parameter_merge_witness :
    (OpenAPIParser.buildEndpoint "/pets/\x7bpetId\x7d" itemDup .get opDup).parameters
        = orEmptyParams itemDup.parameters ++ orEmptyParams opDup.parameters ∧
    ((OpenAPIParser.buildEndpoint "/pets/\x7bpetId\x7d" itemDup .get opDup).parameters.filter
        (fun q => q.name == "petId")).length = 2 :=
  ⟨(parameter_merge _ itemDup .get opDup rfl).1,
   ((parameter_merge "/pets/\x7bpetId\x7d" itemDup .get opDup rfl).2 "petId").trans rfl⟩

/-- A filterMap keeps exactly the elements on which the function succeeds. -/
theorem length_filterMap_eq {α β : Type} (f : α → Option β) (l : List α) :
    (l.filterMap f).length = (l.filter (fun x => (f x).isSome)).length := by
  induction l with
  | nil => rfl
  | cons x xs ih => cases h : f x <;> simp [List.filterMap_cons, List.filter_cons, h, ih]

/-- C8: the builder output equals the flatMap description — document path
order outermost, the fixed method order get, post, put, patch, delete within
an entry — and its length is the total count of present methods: absent
methods produce no endpoint. -/
theorem endpoint_order (spec : OpenAPISpecDoc) :
    OpenAPIParser.extractEndpoints spec = OpenAPIParser.extractEndpointsSpec spec ∧
    (OpenAPIParser.extractEndpoints spec).length
      = (spec.paths.map (fun entry =>
          (methodOrder.filter (fun m => (PathItem.getOp entry.2 m).isSome)).length)).sum := by
  refine ⟨extractEndpoints_eq spec, ?_⟩
  rw [extractEndpoints_eq, OpenAPIParser.extractEndpointsSpec, List.length_flatMap]
  congr 1
  apply List.map_congr_left
  intro entry _
  simp only [Function.comp]
  rw [length_filterMap_eq]
  congr 1
  apply List.filter_congr
  intro m _
  rw [Option.isSome_map']

/-- C9: type synthesis and endpoint building are deterministic two-run
properties of the purely functional embedding: any two terminating synthesis
runs on the same schema and registry with an empty visited set — even under
different depth bounds — return identical type expressions, and two endpoint
builds from the same document return identical lists; the embedding takes
the registry and document as read-only values, so neither run mutates them. -/
theorem generation_deterministic :
    (∀ (schemas : SchemaMap) (s : Schema) (fuel1 fuel2 : Nat) (t1 t2 : String),
      TypeScriptClientGenerator.schemaToType schemas fuel1 s [] = some t1 →
      TypeScriptClientGenerator.schemaToType schemas fuel2 s [] = some t2 →
      t1 = t2) ∧
    (∀ (spec : OpenAPISpecDoc) (l1 l2 : List Endpoint),
      l1 = OpenAPIParser.extractEndpoints spec →
      l2 = OpenAPIParser.extractEndpoints spec →
      l1 = l2) := by
  constructor
  · intro schemas s fuel1 fuel2 t1 t2 h1 h2
    rcases Nat.le_total fuel1 fuel2 with hle | hle
    · have h1x := schemaToType_mono schemas fuel1 fuel2 hle s [] t1 h1
      exact Option.some.inj (h1x.symm.trans h2)
    · have h2x := schemaToType_mono schemas fuel2 fuel1 hle s [] t2 h2
      exact Option.some.inj (h1.symm.trans h2x)
  · intro spec l1 l2 h1 h2
    rw [h1, h2]

/-- Witness for C9 at concrete inputs: two synthesis runs of a boolean
schema under different bounds agree, and two endpoint builds of the same
document agree. -/
theorem generation_deterministic_witness :
    ("boolean" : String) = "boolean" ∧
    OpenAPIParser.extractEndpoints docW = OpenAPIParser.extractEndpoints docW :=
  ⟨generation_deterministic.1 [] (.boolS none) 1 2 "boolean" "boolean" rfl rfl,
   generation_deterministic.2 docW _ _ rfl rfl⟩

end APIGen

